import Mathlib

/-!
Shallow embedding of the hiragana-dictionary conversion engine of
`src/app.js` (repository NimuShiki/doubutuWorld).  The file's core is:

* `parseDictTsv` (lines 19-47; a second identical copy at 204-237):
  parses a TSV dictionary into a 1-symbol map and a 2-symbol map;
* `convert` (lines 57-91): longest-match-first substitution producing an
  output string plus a set of skipped (unmatched) symbols;
* `buildHighlightMarks`: the per-position mark computation of
  `buildHighlightHtml` (lines 94-129);
* `convert2` (lines 246-287): a second copy of the conversion loop that
  differs from `convert` only in that it does not record out-of-alphabet
  symbols in `skipped`.

Strings are embedded as `List Char` (JavaScript strings indexed by code
points via `Array.from`); JS `Map`s as association lists with
insert-or-replace (`mapSet`) and first-match lookup (`mapGet`); JS `Set`s
as duplicate-free lists in insertion order (`setAdd`).
-/

namespace App

/-- Embeds `HIRAGANA_RE = /^[ぁ-ゖ]$/` (line 2): a single code
point is in-alphabet iff it lies in the inclusive range U+3041..U+3096. -/
def isHiragana (c : Char) : Bool :=
  0x3041 ≤ c.toNat && c.toNat ≤ 0x3096

/-- Embeds `isWhitespace` (lines 4-6): newline, carriage return, tab, space. -/
def isWhitespace (c : Char) : Bool :=
  c == '\n' || c == '\r' || c == '\t' || c == ' '

/-- The ECMAScript whitespace set used by `String.prototype.trimEnd` /
`trim` (WhiteSpace plus LineTerminator code points). -/
def isJsWs (c : Char) : Bool :=
  c.toNat == 0x9 || c.toNat == 0xA || c.toNat == 0xB || c.toNat == 0xC ||
  c.toNat == 0xD || c.toNat == 0x20 || c.toNat == 0xA0 || c.toNat == 0x1680 ||
  (0x2000 ≤ c.toNat && c.toNat ≤ 0x200A) || c.toNat == 0x2028 ||
  c.toNat == 0x2029 || c.toNat == 0x202F || c.toNat == 0x205F ||
  c.toNat == 0x3000 || c.toNat == 0xFEFF

/-- Embeds `String.prototype.trimEnd` (line 25): strip trailing whitespace. -/
def trimEnd (cs : List Char) : List Char :=
  (cs.reverse.dropWhile isJsWs).reverse

/-- Embeds `String.prototype.trimStart`: strip leading whitespace. -/
def trimStart (cs : List Char) : List Char :=
  cs.dropWhile isJsWs

/-- Embeds `String.prototype.trim` (line 31): strip whitespace at both ends. -/
def trim (cs : List Char) : List Char :=
  trimStart (trimEnd cs)

/-- Embeds `text.split(/\r?\n/)` (line 23): split on newline, consuming an
immediately preceding carriage return with the newline. -/
def splitLines : List Char → List (List Char)
  | [] => [[]]
  | '\r' :: '\n' :: rest => [] :: splitLines rest
  | '\n' :: rest => [] :: splitLines rest
  | c :: rest =>
    match splitLines rest with
    | l :: ls => (c :: l) :: ls
    | [] => [[c]]

/-- The source calls `String.prototype.normalize('NFC')` (lines 34, 58), a
host builtin.  We model inputs as code-point sequences that are already in
NFC normal form, on which canonical composition is the identity; none of
the verified claims exercises the internals of Unicode normalization. -/
def nfc (cs : List Char) : List Char := cs

/-- Embeds `Map.prototype.get`: value of the first (unique) binding of the
key, or `none` (JS `undefined`) when absent. -/
def mapGet {α : Type} [DecidableEq α] :
    List (α × List Char) → α → Option (List Char)
  | [], _ => none
  | (k', v) :: rest, k => if k' = k then some v else mapGet rest k

/-- Embeds `Map.prototype.set`: replaces the value of an existing binding
in place, otherwise appends a new binding (JS insertion order). -/
def mapSet {α : Type} [DecidableEq α] :
    List (α × List Char) → α → List Char → List (α × List Char)
  | [], k, v => [(k, v)]
  | (k', v') :: rest, k, v =>
    if k' = k then (k, v) :: rest else (k', v') :: mapSet rest k v

/-- Embeds `Set.prototype.add`: append the element unless already present
(JS `Set` semantics: deduplicated, insertion order). -/
def setAdd (s : List Char) (c : Char) : List Char :=
  if c ∈ s then s else s ++ [c]

/-- The dictionary table returned by `parseDictTsv` (lines 20-21, 46):
`map1` keyed by single symbols, `map2` keyed by two-symbol sequences. -/
structure Dict where
  map1 : List (Char × List Char)
  map2 : List (List Char × List Char)
deriving DecidableEq, Repr

/-- The empty dictionary table (`new Map()` twice, e.g. line 153). -/
def emptyDict : Dict := ⟨[], []⟩

/-- Embeds one iteration of the `for (const raw of lines)` loop of
`parseDictTsv` (lines 24-44): trim the line's trailing whitespace, skip
blank and `#` lines and lines without a tab, split at the first tab
(`slice(0,tab)` = `takeWhile`, `slice(tab+1)` = tail of `dropWhile`),
trim and NFC-normalize the key, and insert into `map1`/`map2` when the key
is one/two in-alphabet symbols; otherwise leave the table unchanged. -/
def parseLine (d : Dict) (raw : List Char) : Dict :=
  let line := trimEnd raw
  if line = [] then d
  else if line.head? = some '#' then d
  else if '\t' ∈ line then
    let keyRaw := line.takeWhile (fun c => c != '\t')
    let value := (line.dropWhile (fun c => c != '\t')).tail
    let key := nfc (trim keyRaw)
    match key with
    | [k] => if isHiragana k then { d with map1 := mapSet d.map1 k value } else d
    | [k0, k1] =>
      if isHiragana k0 && isHiragana k1 then
        { d with map2 := mapSet d.map2 [k0, k1] value }
      else d
    | _ => d
  else d

/-- Embeds the body of `parseDictTsv` as a fold of `parseLine` over the
split lines. -/
def parseDictLines (ls : List (List Char)) : Dict :=
  ls.foldl parseLine emptyDict

/-- Embeds `parseDictTsv` (lines 19-47; the copy at lines 204-237 is
semantically identical). -/
def parseDictTsv (text : List Char) : Dict :=
  parseDictLines (splitLines text)

/-- Result of `convert` (line 90): output string and skipped-symbol set. -/
structure ConvResult where
  out : List Char
  skipped : List Char
deriving DecidableEq, Repr

/-- Embeds the scan loop of the first `convert` (lines 64-88), threading
the `out` and `skipped` accumulators: whitespace is copied through;
out-of-alphabet symbols are recorded in `skipped` and dropped; otherwise a
2-symbol lookup is tried first (advancing by 2 on success) and the scan
falls through to the 1-symbol lookup of the current symbol. -/
def convertLoop (dict : Dict) : List Char → List Char → List Char → ConvResult
  | [], out, skipped => ⟨out, skipped⟩
  | c :: rest, out, skipped =>
    if isWhitespace c then convertLoop dict rest (out ++ [c]) skipped
    else if isHiragana c = false then convertLoop dict rest out (setAdd skipped c)
    else
      match rest with
      | c2 :: rest2 =>
        if isHiragana c2 then
          match mapGet dict.map2 [c, c2] with
          | some v2 => convertLoop dict rest2 (out ++ v2) skipped
          | none =>
            match mapGet dict.map1 c with
            | some v1 => convertLoop dict (c2 :: rest2) (out ++ v1) skipped
            | none => convertLoop dict (c2 :: rest2) out (setAdd skipped c)
        else
          match mapGet dict.map1 c with
          | some v1 => convertLoop dict (c2 :: rest2) (out ++ v1) skipped
          | none => convertLoop dict (c2 :: rest2) out (setAdd skipped c)
      | [] =>
        match mapGet dict.map1 c with
        | some v1 => ⟨out ++ v1, skipped⟩
        | none => ⟨out, setAdd skipped c⟩

/-- Embeds the first `convert` (lines 57-91). -/
def convert (src : List Char) (dict : Dict) : ConvResult :=
  convertLoop dict src [] []

/-- Embeds the scan loop of the second `convert` (lines 253-284).  It is
identical to `convertLoop` except in the out-of-alphabet branch
(lines 262-266), which skips the symbol without recording it. -/
def convert2Loop (dict : Dict) : List Char → List Char → List Char → ConvResult
  | [], out, skipped => ⟨out, skipped⟩
  | c :: rest, out, skipped =>
    if isWhitespace c then convert2Loop dict rest (out ++ [c]) skipped
    else if isHiragana c = false then convert2Loop dict rest out skipped
    else
      match rest with
      | c2 :: rest2 =>
        if isHiragana c2 then
          match mapGet dict.map2 [c, c2] with
          | some v2 => convert2Loop dict rest2 (out ++ v2) skipped
          | none =>
            match mapGet dict.map1 c with
            | some v1 => convert2Loop dict (c2 :: rest2) (out ++ v1) skipped
            | none => convert2Loop dict (c2 :: rest2) out (setAdd skipped c)
        else
          match mapGet dict.map1 c with
          | some v1 => convert2Loop dict (c2 :: rest2) (out ++ v1) skipped
          | none => convert2Loop dict (c2 :: rest2) out (setAdd skipped c)
      | [] =>
        match mapGet dict.map1 c with
        | some v1 => ⟨out ++ v1, skipped⟩
        | none => ⟨out, setAdd skipped c⟩

/-- Embeds the second `convert` (lines 246-287). -/
def convert2 (src : List Char) (dict : Dict) : ConvResult :=
  convert2Loop dict src [] []

/-- Per-position classification tag of the highlighting pass:
`good` = matched, `space` = whitespace passthrough, `bad` = unmatched. -/
inductive Mark where
  | good
  | space
  | bad
deriving DecidableEq, Repr

/-- Embeds the mark-computation loop of `buildHighlightHtml`
(lines 97-120): the same scan as `convert`, assigning one tag per
position (a 2-symbol match tags both positions `good`).  The subsequent
HTML assembly (lines 122-128) merely renders these marks and is not
modelled.  The source tests `dict.map2.has(k2)`, embedded as
`(mapGet dict.map2 [c, c2]).isSome`. -/
def buildHighlightMarks (dict : Dict) : List Char → List Mark
  | [] => []
  | c :: rest =>
    if isWhitespace c then Mark.space :: buildHighlightMarks dict rest
    else if isHiragana c = false then Mark.bad :: buildHighlightMarks dict rest
    else
      match rest with
      | c2 :: rest2 =>
        if isHiragana c2 && (mapGet dict.map2 [c, c2]).isSome then
          Mark.good :: Mark.good :: buildHighlightMarks dict rest2
        else
          (if (mapGet dict.map1 c).isSome then Mark.good else Mark.bad) ::
            buildHighlightMarks dict (c2 :: rest2)
      | [] =>
        [if (mapGet dict.map1 c).isSome then Mark.good else Mark.bad]

/-- Instrumented decision trace of the `convert` scan (lines 64-88): it
follows exactly the branch structure of `convertLoop` and returns, for
one pass, the emitted output `tout`, the skip events `tskip` in scan
order, and the per-position match decision `tmarks` (one tag per symbol,
both positions of a 2-symbol match tagged `good`).  This is the
specification-side decision procedure against which the highlighting
pass is compared. -/
structure Trace where
  tout : List Char
  tskip : List Char
  tmarks : List Mark
deriving DecidableEq, Repr

/-- Decision trace of `convertLoop`; see `Trace`. -/
def convertTrace (dict : Dict) : List Char → Trace
  | [] => ⟨[], [], []⟩
  | c :: rest =>
    if isWhitespace c then
      let t := convertTrace dict rest
      ⟨c :: t.tout, t.tskip, Mark.space :: t.tmarks⟩
    else if isHiragana c = false then
      let t := convertTrace dict rest
      ⟨t.tout, c :: t.tskip, Mark.bad :: t.tmarks⟩
    else
      match rest with
      | c2 :: rest2 =>
        if isHiragana c2 then
          match mapGet dict.map2 [c, c2] with
          | some v2 =>
            let t := convertTrace dict rest2
            ⟨v2 ++ t.tout, t.tskip, Mark.good :: Mark.good :: t.tmarks⟩
          | none =>
            let t := convertTrace dict (c2 :: rest2)
            match mapGet dict.map1 c with
            | some v1 => ⟨v1 ++ t.tout, t.tskip, Mark.good :: t.tmarks⟩
            | none => ⟨t.tout, c :: t.tskip, Mark.bad :: t.tmarks⟩
        else
          let t := convertTrace dict (c2 :: rest2)
          match mapGet dict.map1 c with
          | some v1 => ⟨v1 ++ t.tout, t.tskip, Mark.good :: t.tmarks⟩
          | none => ⟨t.tout, c :: t.tskip, Mark.bad :: t.tmarks⟩
      | [] =>
        match mapGet dict.map1 c with
        | some v1 => ⟨v1, [], [Mark.good]⟩
        | none => ⟨[], [c], [Mark.bad]⟩

/-- Characters of the source tagged `bad` by a mark sequence, in order. -/
def badCharsOf (chars : List Char) (marks : List Mark) : List Char :=
  ((chars.zip marks).filter (fun p => p.2 == Mark.bad)).map Prod.fst

/-- The two-map invariant stated in the specification for dictionary
tables: 1-symbol keys are in-alphabet symbols; 2-symbol keys consist of
exactly two in-alphabet symbols. -/
def DictInv (d : Dict) : Prop :=
  (∀ p ∈ d.map1, isHiragana p.1 = true) ∧
  (∀ p ∈ d.map2, p.1.length = 2 ∧ ∀ c ∈ p.1, isHiragana c = true)

/-- The normalized key of an already trailing-trimmed line: text before
the first tab, trimmed and NFC-normalized (lines 31, 34). -/
def keyOf (line : List Char) : List Char :=
  nfc (trim (line.takeWhile (fun c => c != '\t')))

/-- A raw dictionary line that yields no entry: blank or comment after
trailing-whitespace trimming, or without a tab, or whose normalized key
has length 0 or at least 3 or contains an out-of-alphabet symbol. -/
def droppedLine (raw : List Char) : Prop :=
  trimEnd raw = [] ∨ (trimEnd raw).head? = some '#' ∨ '\t' ∉ trimEnd raw ∨
  (keyOf (trimEnd raw)).length = 0 ∨ 3 ≤ (keyOf (trimEnd raw)).length ∨
  ∃ c ∈ keyOf (trimEnd raw), isHiragana c = false

/-- Example table with both the 2-symbol entry あい→X and the 1-symbol
entry あ→Y. -/
def dictLM : Dict := ⟨[('あ', ['Y'])], [(['あ', 'い'], ['X'])]⟩

/-- Example table with only the 1-symbol entry あ→Y. -/
def dictNF : Dict := ⟨[('あ', ['Y'])], []⟩

/-- Example table with 1-symbol entries あ→1 and い→2. -/
def dictWS : Dict := ⟨[('あ', ['1']), ('い', ['2'])], []⟩

end App

namespace App

/-! ### Basic facts about the character classes -/

theorem hira_bounds {c : Char} (h : isHiragana c = true) :
    0x3041 ≤ c.toNat ∧ c.toNat ≤ 0x3096 := by
  simpa [isHiragana] using h

theorem hira_ne {c d : Char} (h : isHiragana c = true) (hd : d.toNat < 0x3041) :
    c ≠ d := by
  intro e
  have hn := hira_bounds h
  rw [e] at hn
  omega

theorem hira_not_ws {c : Char} (h : isHiragana c = true) :
    isWhitespace c = false := by
  cases hb : isWhitespace c with
  | false => rfl
  | true =>
    exfalso
    have : c = '\n' ∨ c = '\r' ∨ c = '\t' ∨ c = ' ' := by
      simpa [isWhitespace, or_assoc] using hb
    rcases this with e | e | e | e <;> rw [e] at h <;> exact absurd h (by decide)

theorem hira_not_jsws {c : Char} (h : isHiragana c = true) :
    isJsWs c = false := by
  cases hb : isJsWs c with
  | false => rfl
  | true =>
    exfalso
    have hn := hira_bounds h
    have hw := by simpa [isJsWs] using hb
    omega

/-! ### Lemmas about the JS map and set embeddings -/

theorem mapGet_mapSet_self {α : Type} [DecidableEq α] :
    ∀ (m : List (α × List Char)) (k : α) (v : List Char),
      mapGet (mapSet m k v) k = some v
  | [], k, v => by simp [mapSet, mapGet]
  | (k', v') :: rest, k, v => by
    by_cases e : k' = k
    · simp [mapSet, mapGet, if_pos e]
    · simp only [mapSet, if_neg e, mapGet]
      exact mapGet_mapSet_self rest k v

theorem mem_setAdd {s : List Char} {a c : Char} :
    c ∈ setAdd s a ↔ c ∈ s ∨ c = a := by
  by_cases h : a ∈ s
  · simp only [setAdd, if_pos h]
    exact ⟨Or.inl, fun hc => hc.elim id fun e => e ▸ h⟩
  · simp [setAdd, if_neg h, List.mem_append]

theorem nodup_setAdd {s : List Char} (h : s.Nodup) (a : Char) :
    (setAdd s a).Nodup := by
  by_cases ha : a ∈ s
  · simpa [setAdd, if_pos ha] using h
  · simp [setAdd, if_neg ha, List.nodup_append, h, ha]

theorem mem_foldl_setAdd :
    ∀ (l s : List Char) (c : Char),
      c ∈ List.foldl setAdd s l ↔ c ∈ s ∨ c ∈ l
  | [], s, c => by simp
  | a :: l, s, c => by
    rw [List.foldl_cons, mem_foldl_setAdd l (setAdd s a) c, mem_setAdd]
    simp only [List.mem_cons]
    tauto

theorem nodup_foldl_setAdd :
    ∀ (l s : List Char), s.Nodup → (List.foldl setAdd s l).Nodup
  | [], _, h => h
  | a :: l, s, h => by
    rw [List.foldl_cons]
    exact nodup_foldl_setAdd l (setAdd s a) (nodup_setAdd h a)

/-! ### One-step unfolding lemmas for the scan loops

The equation lemmas generated for the scan functions follow the compiled
match tree, which also splits the tail of the list; these lemmas recover
the one-step behaviour of the whitespace and out-of-alphabet branches for
an arbitrary tail. -/

theorem convertLoop_step_ws (dict : Dict) (c : Char) (rest out skipped : List Char)
    (h : isWhitespace c = true) :
    convertLoop dict (c :: rest) out skipped =
      convertLoop dict rest (out ++ [c]) skipped := by
  rw [convertLoop.eq_def]
  simp [h]

theorem convertLoop_step_skip (dict : Dict) (c : Char) (rest out skipped : List Char)
    (hw : isWhitespace c = false) (hh : isHiragana c = false) :
    convertLoop dict (c :: rest) out skipped =
      convertLoop dict rest out (setAdd skipped c) := by
  rw [convertLoop.eq_def]
  simp [hw, hh]

theorem convert2Loop_step_ws (dict : Dict) (c : Char) (rest out skipped : List Char)
    (h : isWhitespace c = true) :
    convert2Loop dict (c :: rest) out skipped =
      convert2Loop dict rest (out ++ [c]) skipped := by
  rw [convert2Loop.eq_def]
  simp [h]

theorem convert2Loop_step_skip (dict : Dict) (c : Char) (rest out skipped : List Char)
    (hw : isWhitespace c = false) (hh : isHiragana c = false) :
    convert2Loop dict (c :: rest) out skipped =
      convert2Loop dict rest out skipped := by
  rw [convert2Loop.eq_def]
  simp [hw, hh]

theorem convertTrace_step_ws (dict : Dict) (c : Char) (rest : List Char)
    (h : isWhitespace c = true) :
    convertTrace dict (c :: rest) =
      ⟨c :: (convertTrace dict rest).tout, (convertTrace dict rest).tskip,
       Mark.space :: (convertTrace dict rest).tmarks⟩ := by
  rw [convertTrace.eq_def]
  simp [h]

theorem convertTrace_step_skip (dict : Dict) (c : Char) (rest : List Char)
    (hw : isWhitespace c = false) (hh : isHiragana c = false) :
    convertTrace dict (c :: rest) =
      ⟨(convertTrace dict rest).tout, c :: (convertTrace dict rest).tskip,
       Mark.bad :: (convertTrace dict rest).tmarks⟩ := by
  rw [convertTrace.eq_def]
  simp [hw, hh]

theorem buildMarks_step_ws (dict : Dict) (c : Char) (rest : List Char)
    (h : isWhitespace c = true) :
    buildHighlightMarks dict (c :: rest) =
      Mark.space :: buildHighlightMarks dict rest := by
  rw [buildHighlightMarks.eq_def]
  simp [h]

theorem buildMarks_step_skip (dict : Dict) (c : Char) (rest : List Char)
    (hw : isWhitespace c = false) (hh : isHiragana c = false) :
    buildHighlightMarks dict (c :: rest) =
      Mark.bad :: buildHighlightMarks dict rest := by
  rw [buildHighlightMarks.eq_def]
  simp [hw, hh]

/-! ### The conversion loops computed from the decision trace -/

theorem convertLoop_eq_trace (dict : Dict) (chars : List Char) :
    ∀ out skipped, convertLoop dict chars out skipped =
      ⟨out ++ (convertTrace dict chars).tout,
       List.foldl setAdd skipped (convertTrace dict chars).tskip⟩ := by
  induction chars using convertTrace.induct dict with
  | case1 => intro out skipped; simp [convertLoop, convertTrace]
  | case2 c rest h ih =>
    intro out skipped
    rw [convertLoop_step_ws dict c rest out skipped h, ih,
        convertTrace_step_ws dict c rest h]
    simp
  | case3 c rest hw hh ih =>
    intro out skipped
    have hw' : isWhitespace c = false := by simpa using hw
    rw [convertLoop_step_skip dict c rest out skipped hw' hh, ih,
        convertTrace_step_skip dict c rest hw' hh]
    simp [List.foldl_cons]
  | case4 c hw hh c2 rest2 hc2 v2 hm2 ih =>
    intro out skipped
    simp_all [convertLoop, convertTrace, List.append_assoc]
  | case5 c hw hh c2 rest2 hc2 hm2 v1 hm1 ih =>
    intro out skipped
    simp_all [convertLoop, convertTrace, List.append_assoc]
  | case6 c hw hh c2 rest2 hc2 hm2 hm1 ih =>
    intro out skipped
    simp_all [convertLoop, convertTrace, List.append_assoc]
  | case7 c hw hh c2 rest2 hc2 v1 hm1 ih =>
    intro out skipped
    simp_all [convertLoop, convertTrace, List.append_assoc]
  | case8 c hw hh c2 rest2 hc2 hm1 ih =>
    intro out skipped
    simp_all [convertLoop, convertTrace, List.append_assoc]
  | case9 c hw hh v1 hm1 =>
    intro out skipped
    simp_all [convertLoop, convertTrace]
  | case10 c hw hh hm1 =>
    intro out skipped
    simp_all [convertLoop, convertTrace]

theorem convert2Loop_eq_trace (dict : Dict) (chars : List Char) :
    ∀ out skipped, convert2Loop dict chars out skipped =
      ⟨out ++ (convertTrace dict chars).tout,
       List.foldl setAdd skipped
         ((convertTrace dict chars).tskip.filter (fun c => isHiragana c))⟩ := by
  induction chars using convertTrace.induct dict with
  | case1 => intro out skipped; simp [convert2Loop, convertTrace]
  | case2 c rest h ih =>
    intro out skipped
    rw [convert2Loop_step_ws dict c rest out skipped h, ih,
        convertTrace_step_ws dict c rest h]
    simp
  | case3 c rest hw hh ih =>
    intro out skipped
    have hw' : isWhitespace c = false := by simpa using hw
    rw [convert2Loop_step_skip dict c rest out skipped hw' hh, ih,
        convertTrace_step_skip dict c rest hw' hh]
    simp [List.filter_cons, hh]
  | case4 c hw hh c2 rest2 hc2 v2 hm2 ih =>
    intro out skipped
    simp_all [convert2Loop, convertTrace, List.append_assoc, List.filter_cons]
  | case5 c hw hh c2 rest2 hc2 hm2 v1 hm1 ih =>
    intro out skipped
    simp_all [convert2Loop, convertTrace, List.append_assoc, List.filter_cons]
  | case6 c hw hh c2 rest2 hc2 hm2 hm1 ih =>
    intro out skipped
    simp_all [convert2Loop, convertTrace, List.append_assoc, List.filter_cons]
  | case7 c hw hh c2 rest2 hc2 v1 hm1 ih =>
    intro out skipped
    simp_all [convert2Loop, convertTrace, List.append_assoc, List.filter_cons]
  | case8 c hw hh c2 rest2 hc2 hm1 ih =>
    intro out skipped
    simp_all [convert2Loop, convertTrace, List.append_assoc, List.filter_cons]
  | case9 c hw hh v1 hm1 =>
    intro out skipped
    simp_all [convert2Loop, convertTrace, List.filter_cons]
  | case10 c hw hh hm1 =>
    intro out skipped
    simp_all [convert2Loop, convertTrace, List.filter_cons]

theorem buildHighlightMarks_eq_trace (dict : Dict) (chars : List Char) :
    buildHighlightMarks dict chars = (convertTrace dict chars).tmarks := by
  induction chars using convertTrace.induct dict with
  | case2 c rest h ih =>
    rw [buildMarks_step_ws dict c rest h, ih, convertTrace_step_ws dict c rest h]
  | case3 c rest hw hh ih =>
    have hw' : isWhitespace c = false := by simpa using hw
    rw [buildMarks_step_skip dict c rest hw' hh, ih,
        convertTrace_step_skip dict c rest hw' hh]
  | _ => simp_all [buildHighlightMarks, convertTrace]

theorem trace_marks_length (dict : Dict) (chars : List Char) :
    (convertTrace dict chars).tmarks.length = chars.length := by
  induction chars using convertTrace.induct dict with
  | case2 c rest h ih =>
    rw [convertTrace_step_ws dict c rest h]
    simp [ih]
  | case3 c rest hw hh ih =>
    have hw' : isWhitespace c = false := by simpa using hw
    rw [convertTrace_step_skip dict c rest hw' hh]
    simp [ih]
  | _ => simp_all [convertTrace]

theorem badCharsOf_trace (dict : Dict) (chars : List Char) :
    badCharsOf chars (convertTrace dict chars).tmarks =
      (convertTrace dict chars).tskip := by
  induction chars using convertTrace.induct dict with
  | case2 c rest h ih =>
    rw [convertTrace_step_ws dict c rest h]
    simpa [badCharsOf] using ih
  | case3 c rest hw hh ih =>
    have hw' : isWhitespace c = false := by simpa using hw
    rw [convertTrace_step_skip dict c rest hw' hh]
    simpa [badCharsOf] using ih
  | _ => simp_all [badCharsOf, convertTrace]

theorem trace_empty_tout (chars : List Char) :
    (convertTrace emptyDict chars).tout =
      chars.filter (fun c => isWhitespace c) := by
  induction chars using convertTrace.induct emptyDict with
  | case2 c rest h ih =>
    rw [convertTrace_step_ws emptyDict c rest h]
    simp [List.filter_cons, h, ih]
  | case3 c rest hw hh ih =>
    have hw' : isWhitespace c = false := by simpa using hw
    rw [convertTrace_step_skip emptyDict c rest hw' hh]
    simp [List.filter_cons, hw', ih]
  | _ => simp_all [convertTrace, emptyDict, mapGet, List.filter_cons]

theorem trace_empty_tskip (chars : List Char) :
    (convertTrace emptyDict chars).tskip =
      chars.filter (fun c => !(isWhitespace c)) := by
  induction chars using convertTrace.induct emptyDict with
  | case2 c rest h ih =>
    rw [convertTrace_step_ws emptyDict c rest h]
    simp [List.filter_cons, h, ih]
  | case3 c rest hw hh ih =>
    have hw' : isWhitespace c = false := by simpa using hw
    rw [convertTrace_step_skip emptyDict c rest hw' hh]
    simp [List.filter_cons, hw', ih]
  | _ => simp_all [convertTrace, emptyDict, mapGet, List.filter_cons]

end App

namespace App

/-! ### Line splitting and the parser -/

theorem splitLines_no_newline (cs : List Char) :
    '\n' ∉ cs → splitLines cs = [cs] := by
  induction cs using splitLines.induct with
  | case1 => intro h; rfl
  | case2 rest ih => intro h; simp at h
  | case3 rest ih => intro h; simp at h
  | case4 c rest h1 h2 l ls heq ih =>
    intro h
    have hc : ¬ (c = '\n') := fun e => h (by simp [e])
    have hr : '\n' ∉ rest := fun m => h (List.mem_cons_of_mem _ m)
    have hsl := ih hr
    rw [heq] at hsl
    rw [List.cons.injEq] at hsl
    obtain ⟨rfl, rfl⟩ := hsl
    rw [splitLines.eq_def]
    split
    · next x hq => simp at hq
    · next x rest1 hq =>
      rw [List.cons.injEq] at hq
      rw [hq.2] at hr
      simp at hr
    · next x rest1 hq =>
      rw [List.cons.injEq] at hq
      exact absurd hq.1 hc
    · next x c1 rest1 g1 g2 hq =>
      rw [List.cons.injEq] at hq
      obtain ⟨rfl, rfl⟩ := hq
      rw [heq]
  | case5 c rest h1 h2 heq ih =>
    intro h
    have hr : '\n' ∉ rest := fun m => h (List.mem_cons_of_mem _ m)
    have hsl := ih hr
    rw [heq] at hsl
    exact absurd hsl (by simp)

theorem mapSet_forall {α : Type} [DecidableEq α] (P : α × List Char → Prop) :
    ∀ (m : List (α × List Char)) (k : α) (v : List Char),
      (∀ p ∈ m, P p) → P (k, v) → ∀ p ∈ mapSet m k v, P p
  | [], k, v, _, hkv => by simpa [mapSet] using hkv
  | (k', v') :: rest, k, v, h, hkv => by
    by_cases e : k' = k
    · simp only [mapSet, if_pos e]
      intro p hp
      rcases List.mem_cons.mp hp with rfl | hp
      · exact hkv
      · exact h p (List.mem_cons_of_mem _ hp)
    · simp only [mapSet, if_neg e]
      intro p hp
      rcases List.mem_cons.mp hp with rfl | hp
      · exact h _ (List.mem_cons_self _ _)
      · exact mapSet_forall P rest k v (fun q hq => h q (List.mem_cons_of_mem _ hq)) hkv p hp

theorem parseLine_inv (d : Dict) (raw : List Char) (h : DictInv d) :
    DictInv (parseLine d raw) := by
  dsimp only [parseLine]
  split_ifs with h1 h2 h3
  · exact h
  · exact h
  · split
    · next k hk =>
      by_cases hik : isHiragana k = true
      · simp only [if_pos hik]
        exact ⟨mapSet_forall _ d.map1 k _ h.1 hik, h.2⟩
      · simp only [if_neg hik]
        exact h
    · next k0 k1 hk =>
      by_cases hik : (isHiragana k0 && isHiragana k1) = true
      · simp only [if_pos hik]
        refine ⟨h.1, mapSet_forall _ d.map2 [k0, k1] _ h.2 ⟨rfl, ?_⟩⟩
        intro c hc
        have hboth : isHiragana k0 = true ∧ isHiragana k1 = true := by
          simpa using hik
        obtain ⟨hk0, hk1⟩ := hboth
        rcases List.mem_cons.mp hc with rfl | hc2
        · exact hk0
        · rcases List.mem_cons.mp hc2 with rfl | hc3
          · exact hk1
          · simp at hc3
      · simp only [if_neg hik]
        exact h
    · exact h
  · exact h

theorem parseLine_dropped (d : Dict) (raw : List Char)
    (h : droppedLine raw) : parseLine d raw = d := by
  dsimp only [parseLine]
  split_ifs with h1 h2 h3
  · rfl
  · rfl
  · rw [show nfc (trim ((trimEnd raw).takeWhile (fun c => c != '\t'))) =
          keyOf (trimEnd raw) from rfl]
    rcases h with h | h | h | h | h | h
    · exact absurd h h1
    · exact absurd h h2
    · exact absurd h3 h
    · rw [List.length_eq_zero.mp h]
    · rcases hk : keyOf (trimEnd raw) with _ | ⟨k0, _ | ⟨k1, _ | ⟨k2, ks⟩⟩⟩
      · rfl
      · rw [hk] at h; simp at h
      · rw [hk] at h; simp at h
      · rfl
    · obtain ⟨c, hc, hbad⟩ := h
      rcases hk : keyOf (trimEnd raw) with _ | ⟨k0, _ | ⟨k1, _ | ⟨k2, ks⟩⟩⟩
      · rfl
      · rw [hk] at hc
        rcases List.mem_cons.mp hc with rfl | hc2
        · simp [hbad]
        · simp at hc2
      · rw [hk] at hc
        have hand : (isHiragana k0 && isHiragana k1) = false := by
          rcases List.mem_cons.mp hc with rfl | hc2
          · simp [hbad]
          · rcases List.mem_cons.mp hc2 with rfl | hc3
            · simp [hbad]
            · simp at hc3
        simp [hand]
      · rfl
  · rfl

theorem mapGet_foldl_parseLine (k : Char) :
    ∀ (ls : List (List Char)) (d : Dict),
      (∀ l ∈ ls, ∀ d' : Dict, mapGet (parseLine d' l).map1 k = mapGet d'.map1 k) →
      mapGet (List.foldl parseLine d ls).map1 k = mapGet d.map1 k
  | [], d, _ => rfl
  | l :: ls, d, h => by
    rw [List.foldl_cons,
        mapGet_foldl_parseLine k ls _ (fun x hx => h x (List.mem_cons_of_mem _ hx))]
    exact h l (List.mem_cons_self _ _) d

end App

namespace App

/-! ### Values and the trailing trim of lines -/

/-- The head of the remainder of a dropWhile fails the predicate. -/
theorem head?_dropWhile (p : Char → Bool) :
    ∀ (l : List Char) (c : Char), (l.dropWhile p).head? = some c → p c = false
  | [], c, h => by simp at h
  | a :: l, c, h => by
    rw [List.dropWhile_cons] at h
    by_cases hp : p a = true
    · rw [if_pos hp] at h
      exact head?_dropWhile p l c h
    · rw [if_neg hp] at h
      rw [List.head?_cons, Option.some.injEq] at h
      rw [← h]
      exact Bool.eq_false_iff.mpr hp

/-- A trailing-trimmed line never ends in a whitespace character. -/
theorem trimEnd_no_trailing (raw : List Char) (c : Char)
    (h : (trimEnd raw).getLast? = some c) : isJsWs c = false := by
  unfold trimEnd at h
  rw [List.getLast?_reverse] at h
  exact head?_dropWhile isJsWs _ c h

/-- A nonempty suffix shares the last element of the whole list. -/
theorem getLast?_of_suffix {l s : List Char} (h : s <:+ l) {c : Char}
    (hc : s.getLast? = some c) : l.getLast? = some c := by
  obtain ⟨t, rfl⟩ := h
  rw [List.getLast?_append_of_ne_nil]
  · exact hc
  · intro e
    rw [e] at hc
    simp at hc

/-- The value a line stores (the post-tab text of the trimmed line) never
ends in a whitespace character, being a suffix of the trimmed line. -/
theorem value_no_trailing (raw : List Char) (c : Char)
    (h : (((trimEnd raw).dropWhile (fun c => c != '\t')).tail).getLast? = some c) :
    isJsWs c = false := by
  apply trimEnd_no_trailing raw c
  apply getLast?_of_suffix _ h
  exact (List.tail_suffix _).trans (List.dropWhile_suffix _)

/-- A valid 1-symbol entry line stores exactly the verbatim text after
its first tab, taken from the trailing-trimmed line. -/
theorem parseLine_stores_map1 (d : Dict) (raw : List Char) (k : Char)
    (htab : '\t' ∈ trimEnd raw) (hhash : ¬ (trimEnd raw).head? = some '#')
    (hkey : keyOf (trimEnd raw) = [k]) (hk : isHiragana k = true) :
    mapGet (parseLine d raw).map1 k
      = some (((trimEnd raw).dropWhile (fun c => c != '\t')).tail) := by
  have hne : ¬ trimEnd raw = [] := by
    intro e
    rw [e] at htab
    simp at htab
  dsimp only [parseLine]
  rw [if_neg hne, if_neg hhash, if_pos htab]
  rw [show nfc (trim ((trimEnd raw).takeWhile (fun c => c != '\t')))
        = keyOf (trimEnd raw) from rfl, hkey]
  dsimp only
  rw [if_pos hk]
  exact mapGet_mapSet_self _ _ _

/-- A valid 2-symbol entry line stores exactly the verbatim text after
its first tab, taken from the trailing-trimmed line. -/
theorem parseLine_stores_map2 (d : Dict) (raw : List Char) (k0 k1 : Char)
    (htab : '\t' ∈ trimEnd raw) (hhash : ¬ (trimEnd raw).head? = some '#')
    (hkey : keyOf (trimEnd raw) = [k0, k1])
    (hk0 : isHiragana k0 = true) (hk1 : isHiragana k1 = true) :
    mapGet (parseLine d raw).map2 [k0, k1]
      = some (((trimEnd raw).dropWhile (fun c => c != '\t')).tail) := by
  have hne : ¬ trimEnd raw = [] := by
    intro e
    rw [e] at htab
    simp at htab
  dsimp only [parseLine]
  rw [if_neg hne, if_neg hhash, if_pos htab]
  rw [show nfc (trim ((trimEnd raw).takeWhile (fun c => c != '\t')))
        = keyOf (trimEnd raw) from rfl, hkey]
  dsimp only
  rw [if_pos (by simp [hk0, hk1] : (isHiragana k0 && isHiragana k1) = true)]
  exact mapGet_mapSet_self _ _ _

/-- Processing one line preserves the values-have-no-trailing-whitespace
invariant of both maps. -/
theorem parseLine_no_trailing (d : Dict) (raw : List Char)
    (h1 : ∀ p ∈ d.map1, ∀ c : Char, p.2.getLast? = some c → isJsWs c = false)
    (h2 : ∀ p ∈ d.map2, ∀ c : Char, p.2.getLast? = some c → isJsWs c = false) :
    (∀ p ∈ (parseLine d raw).map1, ∀ c : Char,
      p.2.getLast? = some c → isJsWs c = false) ∧
    (∀ p ∈ (parseLine d raw).map2, ∀ c : Char,
      p.2.getLast? = some c → isJsWs c = false) := by
  dsimp only [parseLine]
  split_ifs with g1 g2 g3
  · exact ⟨h1, h2⟩
  · exact ⟨h1, h2⟩
  · split
    · next k hkey =>
      by_cases hik : isHiragana k = true
      · simp only [if_pos hik]
        exact ⟨mapSet_forall _ d.map1 k _ h1
          (fun c hc => value_no_trailing raw c hc), h2⟩
      · simp only [if_neg hik]
        exact ⟨h1, h2⟩
    · next k0 k1 hkey =>
      by_cases hik : (isHiragana k0 && isHiragana k1) = true
      · simp only [if_pos hik]
        exact ⟨h1, mapSet_forall _ d.map2 [k0, k1] _ h2
          (fun c hc => value_no_trailing raw c hc)⟩
      · simp only [if_neg hik]
        exact ⟨h1, h2⟩
    · exact ⟨h1, h2⟩
  · exact ⟨h1, h2⟩

theorem mapGet_foldl_parseLine2 (k2 : List Char) :
    ∀ (ls : List (List Char)) (d : Dict),
      (∀ l ∈ ls, ∀ d' : Dict, mapGet (parseLine d' l).map2 k2 = mapGet d'.map2 k2) →
      mapGet (List.foldl parseLine d ls).map2 k2 = mapGet d.map2 k2
  | [], _, _ => rfl
  | l :: ls, d, h => by
    rw [List.foldl_cons,
        mapGet_foldl_parseLine2 k2 ls _ (fun x hx => h x (List.mem_cons_of_mem _ hx))]
    exact h l (List.mem_cons_self _ _) d


end App

namespace App

/-! ### Claim theorems -/

/-- C1: whenever the table has a 2-symbol entry for the in-alphabet pair
at the cursor (and also a 1-symbol entry for the first symbol), the scan
of `convert` emits the 2-symbol entry's value and advances the cursor by
2; the 2-symbol match wins unconditionally over the 1-symbol match. -/
theorem convert_longest_match_first
    (dict : Dict) (a b : Char) (v2 w : List Char) (rest out skipped : List Char)
    (ha : isHiragana a = true) (hb : isHiragana b = true)
    (h2 : mapGet dict.map2 [a, b] = some v2)
    (_h1 : mapGet dict.map1 a = some w) :
    convertLoop dict (a :: b :: rest) out skipped =
      convertLoop dict rest (out ++ v2) skipped := by
  have hws := hira_not_ws ha
  simp [convertLoop, hws, ha, hb, h2]

/-- C1 witness: with table あい→X and あ→Y, converting あい yields X. -/
theorem convert_longest_match_first_w :
    convert ['あ', 'い'] dictLM = ⟨['X'], []⟩ := by
  have h := convert_longest_match_first dictLM 'あ' 'い' ['X'] ['Y'] [] [] []
    (by decide) (by decide) (by decide) (by decide)
  simpa [convert, convertLoop] using h

/-- C2: the per-position classification of the highlighting pass agrees
exactly with the decisions of `convert`: the marks equal the decision
trace of the convert scan, one mark per symbol, and the symbols the
highlighting marks `bad` are exactly the ones `convert` records in its
skipped set (in the same scan order). -/
theorem highlight_matches_convert (src : List Char) (dict : Dict) :
    buildHighlightMarks dict src = (convertTrace dict src).tmarks ∧
    (buildHighlightMarks dict src).length = src.length ∧
    (convert src dict).out = (convertTrace dict src).tout ∧
    (convert src dict).skipped =
      List.foldl setAdd [] (badCharsOf src (buildHighlightMarks dict src)) := by
  refine ⟨buildHighlightMarks_eq_trace dict src, ?_, ?_, ?_⟩
  · rw [buildHighlightMarks_eq_trace]
    exact trace_marks_length dict src
  · simp only [convert]
    rw [convertLoop_eq_trace dict src [] []]
    simp
  · simp only [convert]
    rw [convertLoop_eq_trace dict src [] [], buildHighlightMarks_eq_trace,
        badCharsOf_trace]

/-- C3 counterexample: the stored value is not verbatim; the trailing
space of the value of the line あ⟨TAB⟩X␠ is trimmed away together with
the line's trailing whitespace, so X is stored rather than X␠. -/
theorem parse_trailing_space_cx :
    mapGet (parseDictTsv ("あ\tX ".toList)).map1 'あ' = some ("X".toList) ∧
    mapGet (parseDictTsv ("あ\tX ".toList)).map1 'あ' ≠ some ("X ".toList) := by
  decide

/-- C3 (amended): for every entry line, the stored value is the text
after the first tab of the line as it stands after the line's trailing
whitespace has been stripped (line 25), taken verbatim from that trimmed
line (leading and interior whitespace of the value preserved) — stated
for both the 1-symbol and the 2-symbol map — and consequently, for every
input text, no value stored in either map of the parsed table ends in a
whitespace character. -/
theorem parse_value_line_trimmed :
    (∀ (d : Dict) (raw : List Char) (k : Char),
      '\t' ∈ trimEnd raw → ¬ (trimEnd raw).head? = some '#' →
      keyOf (trimEnd raw) = [k] → isHiragana k = true →
      mapGet (parseLine d raw).map1 k
        = some (((trimEnd raw).dropWhile (fun c => c != '\t')).tail)) ∧
    (∀ (d : Dict) (raw : List Char) (k0 k1 : Char),
      '\t' ∈ trimEnd raw → ¬ (trimEnd raw).head? = some '#' →
      keyOf (trimEnd raw) = [k0, k1] →
      isHiragana k0 = true → isHiragana k1 = true →
      mapGet (parseLine d raw).map2 [k0, k1]
        = some (((trimEnd raw).dropWhile (fun c => c != '\t')).tail)) ∧
    (∀ text : List Char,
      (∀ p ∈ (parseDictTsv text).map1, ∀ c : Char,
        p.2.getLast? = some c → isJsWs c = false) ∧
      (∀ p ∈ (parseDictTsv text).map2, ∀ c : Char,
        p.2.getLast? = some c → isJsWs c = false)) := by
  refine ⟨parseLine_stores_map1, parseLine_stores_map2, fun text => ?_⟩
  rw [parseDictTsv, parseDictLines]
  have hfold : ∀ (ls : List (List Char)) (d : Dict),
      ((∀ p ∈ d.map1, ∀ c : Char, p.2.getLast? = some c → isJsWs c = false) ∧
       (∀ p ∈ d.map2, ∀ c : Char, p.2.getLast? = some c → isJsWs c = false)) →
      ((∀ p ∈ (List.foldl parseLine d ls).map1, ∀ c : Char,
        p.2.getLast? = some c → isJsWs c = false) ∧
       (∀ p ∈ (List.foldl parseLine d ls).map2, ∀ c : Char,
        p.2.getLast? = some c → isJsWs c = false)) := by
    intro ls
    induction ls with
    | nil => exact fun d h => h
    | cons l ls ih => exact fun d h => ih _ (parseLine_no_trailing _ _ h.1 h.2)
  exact hfold _ emptyDict ⟨by simp [emptyDict], by simp [emptyDict]⟩

/-- C3 (amended) witness: the line あ⟨TAB⟩␠X␠ stores the value ␠X (its
leading space preserved, its trailing space trimmed away), and the line
あい⟨TAB⟩␠Y⟨TAB⟩␠ stores ␠Y in the 2-symbol map (its trailing tab and
space trimmed away). -/
theorem parse_value_line_trimmed_w :
    mapGet (parseLine emptyDict ("あ\t X ".toList)).map1 'あ' = some (" X".toList) ∧
    mapGet (parseLine emptyDict ("あい\t Y\t ".toList)).map2 ['あ', 'い']
      = some (" Y".toList) := by
  constructor
  · exact (parse_value_line_trimmed.1 emptyDict ("あ\t X ".toList) 'あ'
      (by decide) (by decide) (by decide) (by decide)).trans (by decide)
  · exact (parse_value_line_trimmed.2.1 emptyDict ("あい\t Y\t ".toList) 'あ' 'い'
      (by decide) (by decide) (by decide) (by decide) (by decide)).trans (by decide)

/-- C4 counterexample: the second convert (lines 246-287) does not record
an out-of-alphabet symbol in the skipped set. -/
theorem convert2_not_recorded_cx :
    convert2 ['Z'] emptyDict = ⟨[], []⟩ ∧
    'Z' ∉ (convert2 ['Z'] emptyDict).skipped := by
  decide

/-- C4 (amended): a non-whitespace out-of-alphabet symbol contributes
nothing to the output and the scan advances by 1 past it in both convert
implementations; the first (lines 69-73) records it in the skipped set,
while the second (lines 262-266) does not. -/
theorem out_of_alphabet_dropped
    (dict : Dict) (c : Char) (rest out skipped : List Char)
    (hw : isWhitespace c = false) (hh : isHiragana c = false) :
    convertLoop dict (c :: rest) out skipped =
      convertLoop dict rest out (setAdd skipped c) ∧
    convert2Loop dict (c :: rest) out skipped =
      convert2Loop dict rest out skipped :=
  ⟨convertLoop_step_skip dict c rest out skipped hw hh,
   convert2Loop_step_skip dict c rest out skipped hw hh⟩

/-- C4 witness at the out-of-alphabet symbol Z. -/
theorem out_of_alphabet_dropped_w :
    convertLoop emptyDict ['Z'] [] [] = convertLoop emptyDict [] [] (setAdd [] 'Z') ∧
    convert2Loop emptyDict ['Z'] [] [] = convert2Loop emptyDict [] [] [] :=
  out_of_alphabet_dropped emptyDict 'Z' [] [] [] (by decide) (by decide)

/-- C5: with only a 1-symbol entry for the first symbol and no 2-symbol
entry for the pair, converting the two-symbol string emits the 1-symbol
value and leaves the second symbol to its own (failing) lookup, which
records it in the skipped set; there is no retried 2-symbol match
starting at the second symbol. -/
theorem convert_no_fallback_shift
    (dict : Dict) (a b : Char) (v : List Char)
    (ha : isHiragana a = true) (hb : isHiragana b = true)
    (h2 : mapGet dict.map2 [a, b] = none)
    (h1a : mapGet dict.map1 a = some v) (h1b : mapGet dict.map1 b = none) :
    convert [a, b] dict = ⟨v, [b]⟩ := by
  have hwa := hira_not_ws ha
  have hwb := hira_not_ws hb
  simp [convert, convertLoop, hwa, hwb, ha, hb, h2, h1a, h1b, setAdd]

/-- C5 witness: with table あ→Y only, converting あい yields Y with い
skipped. -/
theorem convert_no_fallback_shift_w :
    convert ['あ', 'い'] dictNF = ⟨['Y'], ['い']⟩ :=
  convert_no_fallback_shift dictNF 'あ' 'い' ['Y']
    (by decide) (by decide) (by decide) (by decide) (by decide)

/-- C6: a whitespace symbol at the cursor is copied verbatim to the
output in scan position (appended as exactly that one symbol) and the
cursor advances by 1; it is never dropped, expanded, or substituted. -/
theorem whitespace_preserved
    (dict : Dict) (c : Char) (rest out skipped : List Char)
    (hw : isWhitespace c = true) :
    convertLoop dict (c :: rest) out skipped =
      convertLoop dict rest (out ++ [c]) skipped :=
  convertLoop_step_ws dict c rest out skipped hw

/-- C6 witness: converting あ⏎い with あ→1, い→2 yields exactly 1⏎2. -/
theorem whitespace_preserved_w :
    convert ['あ', '\n', 'い'] dictWS = ⟨['1', '\n', '2'], []⟩ := by
  have h := whitespace_preserved dictWS '\n' ['い'] ['1'] [] (by decide)
  calc convert ['あ', '\n', 'い'] dictWS
      = convertLoop dictWS ['\n', 'い'] ['1'] [] := by decide
    _ = convertLoop dictWS ['い'] (['1'] ++ ['\n']) [] := h
    _ = ⟨['1', '\n', '2'], []⟩ := by decide

/-- C7: against the empty table, the output of `convert` is exactly the
whitespace of the source (in order); if the source consists only of
in-alphabet non-whitespace symbols, the output is empty and the skipped
set is precisely the set of distinct symbols occurring in the source. -/
theorem convert_empty_table (chars : List Char) :
    (convert chars emptyDict).out = chars.filter (fun c => isWhitespace c) ∧
    ((∀ c ∈ chars, isHiragana c = true ∧ isWhitespace c = false) →
      (convert chars emptyDict).out = [] ∧
      (∀ c : Char, c ∈ (convert chars emptyDict).skipped ↔ c ∈ chars) ∧
      (convert chars emptyDict).skipped.Nodup) := by
  have hout : (convert chars emptyDict).out =
      chars.filter (fun c => isWhitespace c) := by
    simp only [convert]
    rw [convertLoop_eq_trace emptyDict chars [] []]
    simp [trace_empty_tout]
  refine ⟨hout, fun h => ⟨?_, ?_, ?_⟩⟩
  · rw [hout]
    rw [List.filter_eq_nil_iff]
    intro a ha
    simp [(h a ha).2]
  · intro c
    simp only [convert]
    rw [convertLoop_eq_trace emptyDict chars [] []]
    show c ∈ List.foldl setAdd [] (convertTrace emptyDict chars).tskip ↔ c ∈ chars
    rw [mem_foldl_setAdd, trace_empty_tskip]
    simp only [List.mem_filter, List.not_mem_nil, false_or]
    constructor
    · rintro ⟨hc, _⟩
      exact hc
    · intro hc
      exact ⟨hc, by simp [(h c hc).2]⟩
  · simp only [convert]
    rw [convertLoop_eq_trace emptyDict chars [] []]
    exact nodup_foldl_setAdd _ [] List.nodup_nil

/-- C7 witness on the source ああい. -/
theorem convert_empty_table_w :
    (convert ['あ', 'あ', 'い'] emptyDict).out = [] ∧
    ('あ' ∈ (convert ['あ', 'あ', 'い'] emptyDict).skipped ↔
      'あ' ∈ ['あ', 'あ', 'い']) := by
  have h := (convert_empty_table ['あ', 'あ', 'い']).2 (by decide)
  exact ⟨h.1, h.2.1 'あ'⟩

/-- C8: within each length class, a later valid entry line for a key
overwrites an earlier one: if a line that stores value vB for a key is
followed only by lines that do not touch that key, the parsed table maps
the key to vB regardless of any earlier line (such as one storing vA for
the same key), and no error is raised for the duplicate (parsing is
total); stated for both the 1-symbol and the 2-symbol map. -/
theorem parse_last_write_wins :
    (∀ (text : List Char) (ls0 ls1 ls3 : List (List Char))
        (lineA lineB : List Char) (k : Char) (vA vB : List Char),
      splitLines text = ls0 ++ lineA :: ls1 ++ lineB :: ls3 →
      (∀ d : Dict, mapGet (parseLine d lineA).map1 k = some vA) →
      (∀ d : Dict, mapGet (parseLine d lineB).map1 k = some vB) →
      (∀ l ∈ ls3, ∀ d : Dict,
        mapGet (parseLine d l).map1 k = mapGet d.map1 k) →
      mapGet (parseDictTsv text).map1 k = some vB) ∧
    (∀ (text : List Char) (ls0 ls1 ls3 : List (List Char))
        (lineA lineB : List Char) (k2 : List Char) (vA vB : List Char),
      splitLines text = ls0 ++ lineA :: ls1 ++ lineB :: ls3 →
      (∀ d : Dict, mapGet (parseLine d lineA).map2 k2 = some vA) →
      (∀ d : Dict, mapGet (parseLine d lineB).map2 k2 = some vB) →
      (∀ l ∈ ls3, ∀ d : Dict,
        mapGet (parseLine d l).map2 k2 = mapGet d.map2 k2) →
      mapGet (parseDictTsv text).map2 k2 = some vB) := by
  constructor
  · intro text ls0 ls1 ls3 lineA lineB k vA vB hsplit _hA hB h3
    rw [parseDictTsv, hsplit, parseDictLines]
    rw [List.foldl_append, List.foldl_cons, List.foldl_append, List.foldl_cons]
    rw [mapGet_foldl_parseLine k ls3 _ h3]
    exact hB _
  · intro text ls0 ls1 ls3 lineA lineB k2 vA vB hsplit _hA hB h3
    rw [parseDictTsv, hsplit, parseDictLines]
    rw [List.foldl_append, List.foldl_cons, List.foldl_append, List.foldl_cons]
    rw [mapGet_foldl_parseLine2 k2 ls3 _ h3]
    exact hB _

/-- C8 witness: parsing あ⟨TAB⟩ONE⏎あ⟨TAB⟩TWO retains only TWO for あ,
and parsing あい⟨TAB⟩ONE⏎あい⟨TAB⟩TWO retains only TWO for あい. -/
theorem parse_last_write_wins_w :
    mapGet (parseDictTsv ("あ\tONE\nあ\tTWO".toList)).map1 'あ'
      = some ("TWO".toList) ∧
    mapGet (parseDictTsv ("あい\tONE\nあい\tTWO".toList)).map2 ['あ', 'い']
      = some ("TWO".toList) := by
  constructor
  · refine parse_last_write_wins.1 ("あ\tONE\nあ\tTWO".toList) [] [] []
      ("あ\tONE".toList) ("あ\tTWO".toList) 'あ' ("ONE".toList) ("TWO".toList)
      (by decide) ?_ ?_ (by simp)
    · intro d
      show mapGet (mapSet d.map1 'あ' ("ONE".toList)) 'あ' = some ("ONE".toList)
      exact mapGet_mapSet_self _ _ _
    · intro d
      show mapGet (mapSet d.map1 'あ' ("TWO".toList)) 'あ' = some ("TWO".toList)
      exact mapGet_mapSet_self _ _ _
  · refine parse_last_write_wins.2 ("あい\tONE\nあい\tTWO".toList) [] [] []
      ("あい\tONE".toList) ("あい\tTWO".toList) ['あ', 'い']
      ("ONE".toList) ("TWO".toList) (by decide) ?_ ?_ (by simp)
    · intro d
      show mapGet (mapSet d.map2 ['あ', 'い'] ("ONE".toList)) ['あ', 'い']
        = some ("ONE".toList)
      exact mapGet_mapSet_self _ _ _
    · intro d
      show mapGet (mapSet d.map2 ['あ', 'い'] ("TWO".toList)) ['あ', 'い']
        = some ("TWO".toList)
      exact mapGet_mapSet_self _ _ _

/-- C9: for every input text every key of the parsed 1-symbol map is a
single in-alphabet symbol and every key of the 2-symbol map is exactly
two in-alphabet symbols; and every line that is blank or a comment after
trailing trimming, or has no tab, or whose normalized key has length 0
or at least 3 or contains an out-of-alphabet symbol, contributes no
entry (and parsing never fails, being a total function). -/
theorem parse_invariant :
    (∀ text : List Char,
      (∀ p ∈ (parseDictTsv text).map1, isHiragana p.1 = true) ∧
      (∀ p ∈ (parseDictTsv text).map2,
        p.1.length = 2 ∧ ∀ c ∈ p.1, isHiragana c = true)) ∧
    (∀ (d : Dict) (raw : List Char), droppedLine raw → parseLine d raw = d) := by
  constructor
  · intro text
    rw [parseDictTsv, parseDictLines]
    have hfold : ∀ (ls : List (List Char)) (d : Dict), DictInv d →
        DictInv (List.foldl parseLine d ls) := by
      intro ls
      induction ls with
      | nil => exact fun d h => h
      | cons l ls ih => exact fun d h => ih _ (parseLine_inv _ _ h)
    exact hfold _ emptyDict ⟨by simp [emptyDict], by simp [emptyDict]⟩
  · exact parseLine_dropped

/-- C9 witness: a comment line leaves the table unchanged. -/
theorem parse_invariant_w :
    parseLine emptyDict ("# comment".toList) = emptyDict :=
  parse_invariant.2 emptyDict ("# comment".toList)
    (by unfold droppedLine; exact Or.inr (Or.inl (by decide)))

/-- C10 counterexample: the two convert implementations disagree on the
skipped set at the out-of-alphabet input !: the first records it, the
second does not. -/
theorem converts_differ_cx :
    convert ['!'] emptyDict = ⟨[], ['!']⟩ ∧
    convert2 ['!'] emptyDict = ⟨[], []⟩ ∧
    convert ['!'] emptyDict ≠ convert2 ['!'] emptyDict := by
  decide

/-- C10 (amended): the two convert implementations always produce the
same output string, and their skipped sets agree on in-alphabet symbols;
the second's skipped set is exactly the in-alphabet part of the first's. -/
theorem converts_agree_on_output_and_hiragana_skips
    (src : List Char) (dict : Dict) :
    (convert src dict).out = (convert2 src dict).out ∧
    (∀ c : Char, c ∈ (convert2 src dict).skipped ↔
      c ∈ (convert src dict).skipped ∧ isHiragana c = true) := by
  simp only [convert, convert2]
  rw [convertLoop_eq_trace dict src [] [], convert2Loop_eq_trace dict src [] []]
  refine ⟨rfl, fun c => ?_⟩
  show c ∈ List.foldl setAdd []
      ((convertTrace dict src).tskip.filter (fun c => isHiragana c)) ↔
    c ∈ List.foldl setAdd [] (convertTrace dict src).tskip ∧ isHiragana c = true
  rw [mem_foldl_setAdd, mem_foldl_setAdd]
  simp [List.mem_filter]

end App
